import Mathlib

/-!
Verification of the MIME-type registry at the core of the
`mime-types-lite-demo` repository.

The registry consists of:
* a forward table `extensionToMime` mapping lowercase file-extension
  tokens to MIME-type strings (an object literal whose values are the
  constants of the `mime-types-lite` package);
* an inverse table `mimeToExtension` derived from the forward table by a
  `reduce` pass that assigns `acc[mime] = ext` only when `acc[mime]` is
  falsy;
* a lookup-by-extension operation (`MimeLookupDemo.handleLookup`): it
  takes the substring after the last `.` of the input, lower-cases it,
  indexes the forward table and coerces a missing result to `null`
  (`extensionToMime[ext] || null`);
* a lookup-by-MIME-type operation (`ExtensionDemo.handleLookup`): it
  lower-cases the input, indexes the inverse table and coerces a missing
  result to `null`.

Strings are modelled by Lean `String` (a wrapper around `List Char`);
JavaScript `undefined`/`null` results are modelled by `Option.none`.
-/

set_option maxRecDepth 100000

/-- Modelled from the spec: the constant table of the `mime-types-lite`
npm package is not part of this repository's sources (only references
`mimeTypesLite.X` appear in them).  The values below follow the spec's
examples and the demo page's documented extension/MIME table
(`text/html`, `image/jpeg` shared by `JPG`/`JPEG`, etc.), completed with
the package's published constant list. -/
def mimeTypesLite : List (String × String) :=
  [ ("EPUB", "application/epub+zip"),
    ("TEX", "application/x-tex"),
    ("PPT", "application/vnd.ms-powerpoint"),
    ("PPTX", "application/vnd.openxmlformats-officedocument.presentationml.presentation"),
    ("ODT", "application/vnd.oasis.opendocument.text"),
    ("ODS", "application/vnd.oasis.opendocument.spreadsheet"),
    ("RTF", "application/rtf"),
    ("DOC", "application/msword"),
    ("DOCX", "application/vnd.openxmlformats-officedocument.wordprocessingml.document"),
    ("XLS", "application/vnd.ms-excel"),
    ("XLSX", "application/vnd.openxmlformats-officedocument.spreadsheetml.sheet"),
    ("PDF", "application/pdf"),
    ("MD", "text/markdown"),
    ("TXT", "text/plain"),
    ("CSV", "text/csv"),
    ("XCF", "image/x-xcf"),
    ("PSD", "image/vnd.adobe.photoshop"),
    ("JP2", "image/jp2"),
    ("AVIF", "image/avif"),
    ("HEIC", "image/heic"),
    ("WEBP", "image/webp"),
    ("JPG", "image/jpeg"),
    ("JPEG", "image/jpeg"),
    ("PNG", "image/png"),
    ("ICO", "image/x-icon"),
    ("GIF", "image/gif"),
    ("BMP", "image/bmp"),
    ("TIFF", "image/tiff"),
    ("SVG", "image/svg+xml"),
    ("MKV", "video/x-matroska"),
    ("FLV", "video/x-flv"),
    ("WMV", "video/x-ms-wmv"),
    ("MOV", "video/quicktime"),
    ("WEBM", "video/webm"),
    ("AVI", "video/x-msvideo"),
    ("MPEG", "video/mpeg"),
    ("MP4", "video/mp4"),
    ("AMR", "audio/amr"),
    ("MIDI", "audio/midi"),
    ("FLAC", "audio/flac"),
    ("OGG", "audio/ogg"),
    ("AAC", "audio/aac"),
    ("MP3", "audio/mpeg"),
    ("WAV", "audio/wav"),
    ("TAR", "application/x-tar"),
    ("GZ", "application/gzip"),
    ("SEVEN_ZIP", "application/x-7z-compressed"),
    ("ZIP", "application/zip"),
    ("RAR", "application/vnd.rar"),
    ("BZ2", "application/x-bzip2"),
    ("ICS", "text/calendar"),
    ("ATOM", "application/atom+xml"),
    ("RSS", "application/rss+xml"),
    ("WASM", "application/wasm"),
    ("YAML", "application/x-yaml"),
    ("GRAPHQL", "application/graphql"),
    ("JSON", "application/json"),
    ("XML", "application/xml"),
    ("JS", "application/javascript"),
    ("CSS", "text/css"),
    ("HTML", "text/html"),
    ("WOFF", "font/woff"),
    ("WOFF2", "font/woff2"),
    ("TTF", "font/ttf"),
    ("OTF", "font/otf") ]

/-- Access to a `mimeTypesLite` constant (`mimeTypesLite.X` in the
source); unknown constants would be `undefined`, modelled as `""` so
that the table below stays total (every constant used is present). -/
def mimeConst (name : String) : String :=
  match mimeTypesLite.find? (fun p => p.1 = name) with
  | some p => p.2
  | none => ""

/-- The forward table `extensionToMime` of `mime-lookup-demo`
(`src/unnamed/part_001`, lines 12–79), in its literal definition
order. -/
def extensionToMime : List (String × String) :=
  [ ("epub", mimeConst "EPUB"),
    ("tex", mimeConst "TEX"),
    ("ppt", mimeConst "PPT"),
    ("pptx", mimeConst "PPTX"),
    ("odt", mimeConst "ODT"),
    ("ods", mimeConst "ODS"),
    ("rtf", mimeConst "RTF"),
    ("doc", mimeConst "DOC"),
    ("docx", mimeConst "DOCX"),
    ("xls", mimeConst "XLS"),
    ("xlsx", mimeConst "XLSX"),
    ("pdf", mimeConst "PDF"),
    ("md", mimeConst "MD"),
    ("txt", mimeConst "TXT"),
    ("csv", mimeConst "CSV"),
    ("xcf", mimeConst "XCF"),
    ("psd", mimeConst "PSD"),
    ("jp2", mimeConst "JP2"),
    ("avif", mimeConst "AVIF"),
    ("heic", mimeConst "HEIC"),
    ("webp", mimeConst "WEBP"),
    ("jpg", mimeConst "JPG"),
    ("jpeg", mimeConst "JPEG"),
    ("png", mimeConst "PNG"),
    ("ico", mimeConst "ICO"),
    ("gif", mimeConst "GIF"),
    ("bmp", mimeConst "BMP"),
    ("tiff", mimeConst "TIFF"),
    ("svg", mimeConst "SVG"),
    ("mkv", mimeConst "MKV"),
    ("flv", mimeConst "FLV"),
    ("wmv", mimeConst "WMV"),
    ("mov", mimeConst "MOV"),
    ("webm", mimeConst "WEBM"),
    ("avi", mimeConst "AVI"),
    ("mpeg", mimeConst "MPEG"),
    ("mp4", mimeConst "MP4"),
    ("amr", mimeConst "AMR"),
    ("midi", mimeConst "MIDI"),
    ("flac", mimeConst "FLAC"),
    ("ogg", mimeConst "OGG"),
    ("aac", mimeConst "AAC"),
    ("mp3", mimeConst "MP3"),
    ("wav", mimeConst "WAV"),
    ("tar", mimeConst "TAR"),
    ("gz", mimeConst "GZ"),
    ("7z", mimeConst "SEVEN_ZIP"),
    ("zip", mimeConst "ZIP"),
    ("rar", mimeConst "RAR"),
    ("bz2", mimeConst "BZ2"),
    ("ics", mimeConst "ICS"),
    ("atom", mimeConst "ATOM"),
    ("rss", mimeConst "RSS"),
    ("wasm", mimeConst "WASM"),
    ("yaml", mimeConst "YAML"),
    ("yml", mimeConst "YAML"),
    ("graphql", mimeConst "GRAPHQL"),
    ("json", mimeConst "JSON"),
    ("xml", mimeConst "XML"),
    ("js", mimeConst "JS"),
    ("css", mimeConst "CSS"),
    ("html", mimeConst "HTML"),
    ("woff", mimeConst "WOFF"),
    ("woff2", mimeConst "WOFF2"),
    ("ttf", mimeConst "TTF"),
    ("otf", mimeConst "OTF") ]

/-- JavaScript **own-property** read on a string-keyed record modelled
as an association list with distinct keys: `none` models `undefined`.
The full bracket read `rec[k]`, which on a miss falls back to the
inherited members of `Object.prototype`, is `jsGet` below; `recGet` is
exact whenever `k` is a key of the record or not a property of
`Object.prototype`. -/
def recGet (k : String) : List (String × String) → Option String
  | [] => none
  | p :: ps => if p.1 = k then some p.2 else recGet k ps

/-- JavaScript property write `rec[k] = v`: overwrites in place if the
key exists (keeping its position in insertion order), appends
otherwise. -/
def recSet (k v : String) : List (String × String) → List (String × String)
  | [] => [(k, v)]
  | p :: ps => if p.1 = k then (k, v) :: ps else p :: recSet k v ps

/-- JavaScript falsiness of a possibly-absent string value
(`!acc[mime]`): `undefined` and the empty string are falsy. -/
def jsFalsy : Option String → Bool
  | none => true
  | some s => s = ""

/-- JavaScript `x || null` applied to a possibly-absent string value:
a falsy value (absent or empty) becomes `null` (`none`). -/
def jsOrNull : Option String → Option String
  | none => none
  | some s => if s = "" then none else some s

/-- JavaScript `String.prototype.toLowerCase` restricted to the
character-wise simple mapping (exact on the ASCII inputs used here). -/
def jsToLower (s : String) : String :=
  ⟨s.data.map Char.toLower⟩

/-- JavaScript `String.prototype.toUpperCase`, similarly. -/
def jsToUpper (s : String) : String :=
  ⟨s.data.map Char.toUpper⟩

/-- JavaScript `str.split(sep)` for a single-character separator, on
the character list: always returns a nonempty list of segments. -/
def splitOnChar (sep : Char) : List Char → List (List Char)
  | [] => [[]]
  | c :: cs =>
    match splitOnChar sep cs with
    | r :: rs => if c = sep then [] :: r :: rs else (c :: r) :: rs
    | [] => [[]]

/-- JavaScript `filePath.split('.').pop()?.toLowerCase() || ''`
(`MimeLookupDemo.handleLookup`): `split` on a string never yields an
empty array, so `pop` is the last segment — the substring after the
last `.` (the whole string when there is no `.`). -/
def extractExt (filePath : String) : String :=
  jsToLower ⟨(splitOnChar '.' filePath.data).getLastD []⟩

/-- The inverse table `mimeToExtension` (`src/unnamed/part_001`, lines
82–90): a `reduce` over `Object.entries(extensionToMime)` in insertion
order, doing `if (!acc[mime]) acc[mime] = ext`. -/
def mimeToExtension : List (String × String) :=
  extensionToMime.foldl
    (fun acc p => if jsFalsy (recGet p.2 acc) then recSet p.2 p.1 acc else acc)
    []

/-- `MimeLookupDemo.handleLookup`, as a function of the input string:
`extensionToMime[ext] || null` where `ext` is the lower-cased substring
after the last `.`. -/
def lookupMimeType (filePath : String) : Option String :=
  jsOrNull (recGet (extractExt filePath) extensionToMime)

/-- `ExtensionDemo.handleLookup` (`src/components/mime/code-block.tsx`):
`mimeToExtension[mimeType.toLowerCase()] || null`. -/
def lookupExtension (mimeType : String) : Option String :=
  jsOrNull (recGet (jsToLower mimeType) mimeToExtension)

/-- The property names of `Object.prototype` (ECMAScript §20.2.3 plus
the Annex B legacy accessors), inherited by every plain object literal
such as `extensionToMime` and `mimeToExtension`.  Their values are
functions, or `Object.prototype` itself for `__proto__` — all truthy
and none of them strings. -/
def objectProtoKeys : List String :=
  [ "constructor", "hasOwnProperty", "isPrototypeOf",
    "propertyIsEnumerable", "toLocaleString", "toString", "valueOf",
    "__proto__", "__defineGetter__", "__defineSetter__",
    "__lookupGetter__", "__lookupSetter__" ]

/-- A JavaScript value produced by a bracket read on the tables:
`undef` models `undefined`, `str s` an own string value, and
`inherited n` the truthy non-string member of `Object.prototype` named
`n` (a function, or the `Object.prototype` object for `__proto__`). -/
inductive JsVal where
  | undef : JsVal
  | str : String → JsVal
  | inherited : String → JsVal
deriving DecidableEq

/-- The full JavaScript bracket read `rec[k]` on a plain object
literal: an own property shadows the prototype; on an own-property
miss, a key naming an `Object.prototype` member yields that inherited
member, and only otherwise `undefined`. -/
def jsGet (k : String) (l : List (String × String)) : JsVal :=
  match recGet k l with
  | some v => JsVal.str v
  | none => if k ∈ objectProtoKeys then JsVal.inherited k else JsVal.undef

/-- JavaScript `x || null` on a bracket-read result: `undefined` and
the empty string are falsy and become `null` (`none`); inherited
`Object.prototype` members are objects or functions, hence truthy, and
pass through. -/
def jsValOrNull : JsVal → Option JsVal
  | JsVal.undef => none
  | JsVal.str s => if s = "" then none else some (JsVal.str s)
  | JsVal.inherited n => some (JsVal.inherited n)

/-- `MimeLookupDemo.handleLookup` with the full bracket-read
semantics: `extensionToMime[ext] || null` including the
`Object.prototype` fallback. -/
def lookupMimeTypeJs (filePath : String) : Option JsVal :=
  jsValOrNull (jsGet (extractExt filePath) extensionToMime)

/-- `ExtensionDemo.handleLookup` with the full bracket-read
semantics: `mimeToExtension[mimeType.toLowerCase()] || null` including
the `Object.prototype` fallback. -/
def lookupExtensionJs (mimeType : String) : Option JsVal :=
  jsValOrNull (jsGet (jsToLower mimeType) mimeToExtension)

/-- The spec's wording of the inverse-table derivation: a single pass
over the forward table in definition order, inserting a
`(mimeType, extension)` pair only if `mimeType` is **not already a
key**.  (The source instead tests JavaScript falsiness of
`acc[mime]`.) -/
def specMimeToExtension : List (String × String) :=
  extensionToMime.foldl
    (fun acc p => if (recGet p.2 acc).isSome then acc else acc ++ [(p.2, p.1)])
    []

/-- The registry as module-level state: the two tables built at module
load.  Lookups below thread this state explicitly to express that they
never modify it. -/
structure RegistryState where
  forward : List (String × String)
  inverse : List (String × String)

/-- The state after one-time construction from the fixed literal. -/
def initRegistry : RegistryState :=
  { forward := extensionToMime, inverse := mimeToExtension }

/-- `MimeLookupDemo.handleLookup` reading the module state: returns the
result together with the (unchanged) state. -/
def runLookupMimeType (st : RegistryState) (filePath : String) :
    Option String × RegistryState :=
  (jsOrNull (recGet (extractExt filePath) st.forward), st)

/-- `ExtensionDemo.handleLookup` reading the module state. -/
def runLookupExtension (st : RegistryState) (mimeType : String) :
    Option String × RegistryState :=
  (jsOrNull (recGet (jsToLower mimeType) st.inverse), st)

/-! ### Generic lemmas about the record and split models -/

theorem recGet_eq_none {k : String} {l : List (String × String)} :
    recGet k l = none ↔ k ∉ l.map Prod.fst := by
  induction l with
  | nil => simp [recGet]
  | cons p ps ih =>
    by_cases h : p.1 = k
    · simp [recGet, h]
    · simp only [recGet, h, if_false, ih, List.map_cons, List.mem_cons]
      constructor
      · intro hn hk
        rcases hk with hk | hk
        · exact h hk.symm
        · exact hn hk
      · intro hn hk
        exact hn (Or.inr hk)

theorem recGet_mem {k v : String} {l : List (String × String)}
    (h : recGet k l = some v) : (k, v) ∈ l := by
  induction l with
  | nil => simp [recGet] at h
  | cons p ps ih =>
    by_cases hk : p.1 = k
    · simp [recGet, hk] at h
      subst hk
      simp [← h]
    · simp [recGet, hk] at h
      exact List.mem_cons_of_mem _ (ih h)

theorem jsOrNull_eq_some {o : Option String} {v : String}
    (h : jsOrNull o = some v) : o = some v := by
  cases o with
  | none => simp [jsOrNull] at h
  | some s =>
    by_cases hs : s = ""
    · simp [jsOrNull, hs] at h
    · simp [jsOrNull, hs] at h
      simp [h]

theorem jsGet_of_recGet_some {k v : String} {l : List (String × String)}
    (h : recGet k l = some v) : jsGet k l = JsVal.str v := by
  unfold jsGet
  rw [h]

theorem jsGet_of_miss_proto {k : String} {l : List (String × String)}
    (h : recGet k l = none) (hp : k ∈ objectProtoKeys) :
    jsGet k l = JsVal.inherited k := by
  unfold jsGet
  rw [h]
  simp [hp]

theorem jsGet_of_miss_not_proto {k : String} {l : List (String × String)}
    (h : recGet k l = none) (hp : k ∉ objectProtoKeys) :
    jsGet k l = JsVal.undef := by
  unfold jsGet
  rw [h]
  simp [hp]

theorem splitOnChar_ne_nil (sep : Char) (l : List Char) :
    splitOnChar sep l ≠ [] := by
  cases l with
  | nil => simp [splitOnChar]
  | cons c cs =>
    cases h : splitOnChar sep cs with
    | nil => simp [splitOnChar, h]
    | cons r rs =>
      by_cases hc : c = sep <;> simp [splitOnChar, h, hc]

theorem splitOnChar_of_not_mem {sep : Char} {l : List Char}
    (h : sep ∉ l) : splitOnChar sep l = [l] := by
  induction l with
  | nil => rfl
  | cons c cs ih =>
    have hc : c ≠ sep := fun hc => h (hc ▸ List.mem_cons_self c cs)
    have hcs : sep ∉ cs := fun hm => h (List.mem_cons_of_mem _ hm)
    simp [splitOnChar, ih hcs, hc]

theorem splitOnChar_of_mem {sep : Char} {l : List Char} (h : sep ∈ l) :
    ∃ x y t, splitOnChar sep l = x :: y :: t := by
  induction l with
  | nil => simp at h
  | cons c cs ih =>
    by_cases hc : c = sep
    · obtain ⟨r, rs, hr⟩ :
          ∃ r rs, splitOnChar sep cs = r :: rs := by
        cases hcs : splitOnChar sep cs with
        | nil => exact absurd hcs (splitOnChar_ne_nil sep cs)
        | cons r rs => exact ⟨r, rs, rfl⟩
      exact ⟨[], r, rs, by simp [splitOnChar, hr, hc]⟩
    · have hmem : sep ∈ cs := by
        rcases List.mem_cons.mp h with h1 | h1
        · exact absurd h1.symm hc
        · exact h1
      obtain ⟨x, y, t, hxy⟩ := ih hmem
      exact ⟨c :: x, y, t, by simp [splitOnChar, hxy, hc]⟩

theorem getLastD_splitOnChar_append (sep : Char) (l₁ l₂ : List Char)
    (d : List Char) :
    (splitOnChar sep (l₁ ++ sep :: l₂)).getLastD d =
      (splitOnChar sep l₂).getLastD d := by
  induction l₁ generalizing d with
  | nil =>
    obtain ⟨r, rs, hr⟩ :
        ∃ r rs, splitOnChar sep l₂ = r :: rs := by
      cases hs : splitOnChar sep l₂ with
      | nil => exact absurd hs (splitOnChar_ne_nil sep l₂)
      | cons r rs => exact ⟨r, rs, rfl⟩
    simp [splitOnChar, hr, List.getLastD_cons]
  | cons c l₁ ih =>
    have hmem : sep ∈ l₁ ++ sep :: l₂ := by simp
    obtain ⟨x, y, t, hxy⟩ := splitOnChar_of_mem hmem
    have hih := ih d
    rw [hxy, List.getLastD_cons, List.getLastD_cons] at hih
    rw [List.cons_append]
    by_cases hc : c = sep
    · have hstep :
          splitOnChar sep (c :: (l₁ ++ sep :: l₂)) = [] :: x :: y :: t := by
        simp [splitOnChar, hxy, hc]
      rw [hstep, List.getLastD_cons, List.getLastD_cons, List.getLastD_cons]
      exact hih
    · have hstep :
          splitOnChar sep (c :: (l₁ ++ sep :: l₂)) = (c :: x) :: y :: t := by
        simp [splitOnChar, hxy, hc]
      rw [hstep, List.getLastD_cons, List.getLastD_cons]
      exact hih

/-- On an input with no dot, the extracted candidate is the whole
string, lower-cased. -/
theorem extractExt_no_dot {s : String} (h : ('.' : Char) ∉ s.data) :
    extractExt s = jsToLower s := by
  unfold extractExt
  rw [splitOnChar_of_not_mem h]
  rfl

/-- On `pre ++ "." ++ e` with `e` dot-free, the extracted candidate is
`e`, lower-cased: only the substring after the last dot matters. -/
theorem extractExt_append {e : String} (pre : String)
    (h : ('.' : Char) ∉ e.data) :
    extractExt (pre ++ "." ++ e) = jsToLower e := by
  unfold extractExt
  have hdot : (".".data : List Char) = ['.'] := rfl
  have hdata : (pre ++ "." ++ e).data = pre.data ++ '.' :: e.data := by
    rw [String.data_append, String.data_append, List.append_assoc, hdot]
    rfl
  rw [hdata, getLastD_splitOnChar_append, splitOnChar_of_not_mem h]
  rfl

/-! ### Claim theorems -/

/-- Claim C1: the inverse table is derived by a single pass over the
forward table in definition order, inserting a `(mimeType, extension)`
pair only if `mimeType` is not already a key (the source's falsiness
test agrees with the spec's key-absence test here), so for every MIME
type the inverse table retains the first-defined extension; in
particular, since `jpg` is defined before `jpeg`,
`lookupExtension "image/jpeg"` returns `"jpg"`. -/
theorem inverse_first_seen_wins :
    mimeToExtension = specMimeToExtension ∧
      (∀ m : String,
        recGet m mimeToExtension =
          (extensionToMime.find? (fun q => q.2 = m)).map Prod.fst) ∧
      lookupExtension "image/jpeg" = some "jpg" := by
  refine ⟨by decide, ?_, by decide⟩
  intro m
  by_cases hm : m ∈ extensionToMime.map Prod.snd
  · obtain ⟨p, hp, hpm⟩ := List.mem_map.mp hm
    have hdec : ∀ p ∈ extensionToMime,
        recGet p.2 mimeToExtension =
          (extensionToMime.find? (fun q => q.2 = p.2)).map Prod.fst := by
      decide
    rw [← hpm]
    exact hdec p hp
  · have hkeys : ∀ q ∈ mimeToExtension, q.1 ∈ extensionToMime.map Prod.snd := by
      decide
    have hnone : recGet m mimeToExtension = none := by
      rw [recGet_eq_none]
      intro hk
      obtain ⟨q, hq, hqm⟩ := List.mem_map.mp hk
      exact hm (hqm ▸ hkeys q hq)
    have hfind : extensionToMime.find? (fun q => q.2 = m) = none := by
      rw [List.find?_eq_none]
      intro x hx
      simp only [decide_eq_true_eq]
      intro hxm
      exact hm (List.mem_map.mpr ⟨x, hx, hxm⟩)
    rw [hnone, hfind]
    rfl

/-- Claim C2: every forward-table pair is returned by `lookupMimeType`,
both on the extension itself and on its upper-cased form (the candidate
is lower-cased before lookup). -/
theorem lookup_forward_and_case_insensitive :
    ∀ p ∈ extensionToMime,
      lookupMimeType p.1 = some p.2 ∧
        lookupMimeType (jsToUpper p.1) = some p.2 := by
  decide

theorem lookup_forward_and_case_insensitive_witness :
    ("html", mimeConst "HTML") ∈ extensionToMime ∧
      (lookupMimeType "html" = some (mimeConst "HTML") ∧
        lookupMimeType (jsToUpper "html") = some (mimeConst "HTML")) :=
  ⟨by decide,
    lookup_forward_and_case_insensitive ("html", mimeConst "HTML") (by decide)⟩

/-- Claim C3: `lookupMimeType` uses only the substring after the last
`.` of its input: prefixing any string and a dot to a registered
extension does not change the result, and an input with no dot is
treated as the whole string being the candidate extension. -/
theorem lookup_uses_last_dot_segment :
    (∀ p ∈ extensionToMime, ∀ pre : String,
        lookupMimeType (pre ++ "." ++ p.1) = some p.2) ∧
      (∀ s : String, ('.' : Char) ∉ s.data →
        lookupMimeType s = jsOrNull (recGet (jsToLower s) extensionToMime)) := by
  constructor
  · have hdec : ∀ p ∈ extensionToMime,
        ('.' : Char) ∉ p.1.data ∧
          jsOrNull (recGet (jsToLower p.1) extensionToMime) = some p.2 := by
      decide
    intro p hp pre
    obtain ⟨hnd, hlook⟩ := hdec p hp
    unfold lookupMimeType
    rw [extractExt_append pre hnd]
    exact hlook
  · intro s hs
    unfold lookupMimeType
    rw [extractExt_no_dot hs]

theorem lookup_uses_last_dot_segment_witness :
    ("png", mimeConst "PNG") ∈ extensionToMime ∧
      lookupMimeType ("photo" ++ "." ++ "png") = some (mimeConst "PNG") :=
  ⟨by decide,
    lookup_uses_last_dot_segment.1 ("png", mimeConst "PNG") (by decide) "photo"⟩

/-- Claim C4: round-trip consistency — for every MIME type in the
forward table, `lookupExtension` succeeds with some extension `e` and
`lookupMimeType e` returns that MIME type again. -/
theorem roundtrip_consistency :
    ∀ p ∈ extensionToMime, ∃ e : String,
      lookupExtension p.2 = some e ∧ lookupMimeType e = some p.2 := by
  have hdec : ∀ p ∈ extensionToMime,
      (lookupExtension p.2).isSome = true ∧
        lookupMimeType ((lookupExtension p.2).getD "") = some p.2 := by
    decide
  intro p hp
  obtain ⟨h1, h2⟩ := hdec p hp
  obtain ⟨e, he⟩ := Option.isSome_iff_exists.mp h1
  refine ⟨e, he, ?_⟩
  rw [he] at h2
  simpa using h2

theorem roundtrip_consistency_witness :
    ("pdf", mimeConst "PDF") ∈ extensionToMime ∧
      ∃ e : String, lookupExtension (mimeConst "PDF") = some e ∧
        lookupMimeType e = some (mimeConst "PDF") :=
  ⟨by decide, roundtrip_consistency ("pdf", mimeConst "PDF") (by decide)⟩

/-- Claim C5 counterexample: `"constructor"` is a dot-free input and
not a registered extension, yet the program does not return the
NotFound `null`: the bracket read falls back to the inherited
`Object.prototype.constructor`, which is truthy, so `|| null` passes it
through. -/
theorem lookup_constructor_not_none :
    extractExt "constructor" ∉ extensionToMime.map Prod.fst ∧
      ('.' : Char) ∉ "constructor".data ∧
      lookupMimeTypeJs "constructor" =
        some (JsVal.inherited "constructor") := by
  decide

/-- Claim C5 as amended: neither lookup throws (both are total
functions into `Option`); the boundary inputs `""`, `"file."` and an
unknown MIME type return `none`, and so does any dot-free input whose
lower-casing is neither a registered extension nor the name of an
inherited `Object.prototype` property. -/
theorem lookups_total_not_found_outside_proto :
    lookupMimeTypeJs "" = none ∧
      lookupMimeTypeJs "file." = none ∧
      lookupExtensionJs "not/a/real-type" = none ∧
      (∀ s : String, ('.' : Char) ∉ s.data →
        jsToLower s ∉ extensionToMime.map Prod.fst →
        jsToLower s ∉ objectProtoKeys →
        lookupMimeTypeJs s = none) := by
  refine ⟨by decide, by decide, by decide, ?_⟩
  intro s hdot hmem hproto
  unfold lookupMimeTypeJs
  rw [extractExt_no_dot hdot,
    jsGet_of_miss_not_proto (recGet_eq_none.mpr hmem) hproto]
  rfl

theorem lookups_total_not_found_outside_proto_witness :
    (('.' : Char) ∉ "gitignore".data ∧
        jsToLower "gitignore" ∉ extensionToMime.map Prod.fst ∧
        jsToLower "gitignore" ∉ objectProtoKeys) ∧
      lookupMimeTypeJs "gitignore" = none :=
  ⟨⟨by decide, by decide, by decide⟩,
    lookups_total_not_found_outside_proto.2.2.2 "gitignore"
      (by decide) (by decide) (by decide)⟩

/-- Claim C6: the key set of the inverse table is exactly the set of
MIME-type values of the forward table, with no key repeated. -/
theorem inverse_key_set :
    (∀ m : String,
        m ∈ mimeToExtension.map Prod.fst ↔ m ∈ extensionToMime.map Prod.snd) ∧
      (mimeToExtension.map Prod.fst).Nodup := by
  have h1 : ∀ m ∈ extensionToMime.map Prod.snd,
      m ∈ mimeToExtension.map Prod.fst := by decide
  have h2 : ∀ m ∈ mimeToExtension.map Prod.fst,
      m ∈ extensionToMime.map Prod.snd := by decide
  exact ⟨fun m => ⟨fun h => h2 m h, fun h => h1 m h⟩, by decide⟩

/-- Claim C7: both lookups are deterministic and side-effect free —
threading the module state explicitly, a lookup returns the state
unchanged, a repeated lookup returns the same result, the state is the
one built once from the literal tables, and the pure lookup functions
agree with the state-threaded ones. -/
theorem lookups_pure_and_tables_immutable :
    initRegistry = { forward := extensionToMime, inverse := mimeToExtension } ∧
      (∀ (st : RegistryState) (q : String),
        (runLookupMimeType st q).2 = st ∧
          (runLookupMimeType (runLookupMimeType st q).2 q).1 =
            (runLookupMimeType st q).1) ∧
      (∀ (st : RegistryState) (m : String),
        (runLookupExtension st m).2 = st ∧
          (runLookupExtension (runLookupExtension st m).2 m).1 =
            (runLookupExtension st m).1) ∧
      (∀ s : String, lookupMimeType s = (runLookupMimeType initRegistry s).1) ∧
      (∀ m : String, lookupExtension m = (runLookupExtension initRegistry m).1) :=
  ⟨rfl, fun _ _ => ⟨rfl, rfl⟩, fun _ _ => ⟨rfl, rfl⟩, fun _ => rfl, fun _ => rfl⟩

/-- Claim C8: `yml` and `yaml` are aliases — both forward entries carry
the same `mimeTypesLite.YAML` constant, the two lookups agree, and the
inverse lookup of that constant returns `yaml`, the earlier-defined of
the two extensions. -/
theorem yml_yaml_alias :
    recGet "yaml" extensionToMime = some (mimeConst "YAML") ∧
      recGet "yml" extensionToMime = some (mimeConst "YAML") ∧
      lookupMimeType "yml" = lookupMimeType "yaml" ∧
      lookupMimeType "yaml" = some (mimeConst "YAML") ∧
      lookupExtension (mimeConst "YAML") = some "yaml" := by
  decide

/-- Claim C9: every value of the inverse table is a forward-table key,
so a successful `lookupExtension` result is a nonempty, all-lowercase
token with no dot and no path separator. -/
theorem inverse_values_are_extensions :
    (∀ q ∈ mimeToExtension, q.2 ∈ extensionToMime.map Prod.fst) ∧
      (∀ m e : String, lookupExtension m = some e →
        e ≠ "" ∧ jsToLower e = e ∧
          ('.' : Char) ∉ e.data ∧ ('/' : Char) ∉ e.data) := by
  have hval : ∀ q ∈ mimeToExtension,
      q.2 ≠ "" ∧ jsToLower q.2 = q.2 ∧
        ('.' : Char) ∉ q.2.data ∧ ('/' : Char) ∉ q.2.data := by decide
  refine ⟨by decide, ?_⟩
  intro m e he
  have hrec : recGet (jsToLower m) mimeToExtension = some e := jsOrNull_eq_some he
  exact hval _ (recGet_mem hrec)

theorem inverse_values_are_extensions_witness :
    (("text/html", "html") ∈ mimeToExtension ∧
        "html" ∈ extensionToMime.map Prod.fst) ∧
      lookupExtension "text/html" = some "html" ∧
      ("html" ≠ "" ∧ jsToLower "html" = "html" ∧
        ('.' : Char) ∉ "html".data ∧ ('/' : Char) ∉ "html".data) :=
  ⟨⟨by decide, inverse_values_are_extensions.1 ("text/html", "html") (by decide)⟩,
    by decide,
    inverse_values_are_extensions.2 "text/html" "html" (by decide)⟩

/-- Claim C10 counterexample: at `"file.__proto__"` the lower-cased
substring after the last dot, `"__proto__"`, is not a forward-table
key, yet the program does not return `null`: the bracket read walks
the prototype chain and yields the truthy inherited `__proto__`
member. -/
theorem lookup_proto_breaks_none_iff :
    extractExt "file.__proto__" ∉ extensionToMime.map Prod.fst ∧
      lookupMimeTypeJs "file.__proto__" =
        some (JsVal.inherited "__proto__") := by
  decide

/-- Claim C10 as amended: `lookupMimeType` returns `null` (`none`,
with `|| null` normalizing `undefined` to `null`) exactly when the
lower-cased substring after the last dot is neither a forward-table
key nor the name of an inherited `Object.prototype` property, and
whenever it returns a string that string is a nonempty forward-table
value. -/
theorem lookup_none_iff_outside_proto :
    (∀ s : String,
        lookupMimeTypeJs s = none ↔
          (extractExt s ∉ extensionToMime.map Prod.fst ∧
            extractExt s ∉ objectProtoKeys)) ∧
      (∀ s m : String, lookupMimeTypeJs s = some (JsVal.str m) →
        m ≠ "" ∧ m ∈ extensionToMime.map Prod.snd) := by
  have hvals : ∀ p ∈ extensionToMime, p.2 ≠ "" := by decide
  constructor
  · intro s
    cases h : recGet (extractExt s) extensionToMime with
    | none =>
      have hk := recGet_eq_none.mp h
      by_cases hp : extractExt s ∈ objectProtoKeys
      · constructor
        · intro hnone
          unfold lookupMimeTypeJs at hnone
          rw [jsGet_of_miss_proto h hp] at hnone
          simp [jsValOrNull] at hnone
        · intro hc
          exact absurd hp hc.2
      · refine ⟨fun _ => ⟨hk, hp⟩, fun _ => ?_⟩
        unfold lookupMimeTypeJs
        rw [jsGet_of_miss_not_proto h hp]
        rfl
    | some v =>
      have hmem := recGet_mem h
      have hv : v ≠ "" := hvals _ hmem
      have hkey : extractExt s ∈ extensionToMime.map Prod.fst :=
        List.mem_map.mpr ⟨_, hmem, rfl⟩
      constructor
      · intro hnone
        unfold lookupMimeTypeJs at hnone
        rw [jsGet_of_recGet_some h] at hnone
        simp [jsValOrNull, hv] at hnone
      · intro hc
        exact absurd hkey hc.1
  · intro s m hm
    unfold lookupMimeTypeJs at hm
    cases h : recGet (extractExt s) extensionToMime with
    | none =>
      by_cases hp : extractExt s ∈ objectProtoKeys
      · rw [jsGet_of_miss_proto h hp] at hm
        simp [jsValOrNull] at hm
      · rw [jsGet_of_miss_not_proto h hp] at hm
        simp [jsValOrNull] at hm
    | some v =>
      have hmem := recGet_mem h
      have hv : v ≠ "" := hvals _ hmem
      rw [jsGet_of_recGet_some h] at hm
      simp [jsValOrNull, hv] at hm
      subst hm
      exact ⟨hv, List.mem_map.mpr ⟨_, hmem, rfl⟩⟩

theorem lookup_none_iff_outside_proto_witness :
    lookupMimeTypeJs "a.png" = some (JsVal.str (mimeConst "PNG")) ∧
      (mimeConst "PNG" ≠ "" ∧
        mimeConst "PNG" ∈ extensionToMime.map Prod.snd) :=
  ⟨by decide,
    lookup_none_iff_outside_proto.2 "a.png" (mimeConst "PNG") (by decide)⟩
